import Mathlib

/-!
Verification of the `fiducial_slam` node (`src/fiducial_slam/src/fiducial_slam.cpp`)
of the gjaeger1/fiducials repository.

The node-level logic (the `FiducialSlam` class, `compareObservation`,
`transformCallback`, the constructor, `mySigintHandler` and `main`) is embedded
from the C++ source.  The `Map` class and the `Observation`/
`TransformWithVariance` containers are declared in `fiducial_slam/map.h` and
implemented in `map.cpp`, which are not part of the sources; those parts are
modelled from the specification where a claim needs them, and each such
definition is marked `Modelled from the spec:` in its doc comment.

Scalars: C++ `double` values are modelled by `Dbl`, an idealized IEEE double:
finite values are exact rationals (rounding is abstracted away), and the
non-finite values `inf`, `ninf` and `nan` are explicit, so that division by
zero and propagation of non-finite values behave as in IEEE arithmetic.
There is no negative zero in the model; `x / 0` for positive `x` is `inf`.
-/

namespace FidSlam

/-- Idealized IEEE double: an exact rational, or a signed infinity, or nan. -/
inductive Dbl where
  | fin : ℚ → Dbl
  | inf : Dbl
  | ninf : Dbl
  | nan : Dbl
deriving DecidableEq

/-- True exactly on finite values. -/
def Dbl.isFinite : Dbl → Bool
  | .fin _ => true
  | _ => false

def Dbl.neg : Dbl → Dbl
  | .fin a => .fin (-a)
  | .inf => .ninf
  | .ninf => .inf
  | .nan => .nan

def Dbl.add : Dbl → Dbl → Dbl
  | .fin a, .fin b => .fin (a + b)
  | .fin _, .inf => .inf
  | .fin _, .ninf => .ninf
  | .inf, .fin _ => .inf
  | .ninf, .fin _ => .ninf
  | .inf, .inf => .inf
  | .ninf, .ninf => .ninf
  | .inf, .ninf => .nan
  | .ninf, .inf => .nan
  | .nan, _ => .nan
  | _, .nan => .nan

def Dbl.sub (a b : Dbl) : Dbl := a.add b.neg

def Dbl.mul : Dbl → Dbl → Dbl
  | .fin a, .fin b => .fin (a * b)
  | .fin a, .inf => if a = 0 then .nan else if 0 < a then .inf else .ninf
  | .fin a, .ninf => if a = 0 then .nan else if 0 < a then .ninf else .inf
  | .inf, .fin b => if b = 0 then .nan else if 0 < b then .inf else .ninf
  | .ninf, .fin b => if b = 0 then .nan else if 0 < b then .ninf else .inf
  | .inf, .inf => .inf
  | .inf, .ninf => .ninf
  | .ninf, .inf => .ninf
  | .ninf, .ninf => .inf
  | .nan, _ => .nan
  | _, .nan => .nan

/-- IEEE division on the idealized doubles; a nonzero finite value divided by
zero is the correspondingly signed infinity (the model has no signed zero, a
zero divisor is treated as `+0`). -/
def Dbl.div : Dbl → Dbl → Dbl
  | .fin a, .fin b =>
      if b = 0 then (if a = 0 then .nan else if 0 < a then .inf else .ninf)
      else .fin (a / b)
  | .fin _, .inf => .fin 0
  | .fin _, .ninf => .fin 0
  | .inf, .fin b => if 0 ≤ b then .inf else .ninf
  | .ninf, .fin b => if 0 ≤ b then .ninf else .inf
  | .inf, .inf => .nan
  | .inf, .ninf => .nan
  | .ninf, .inf => .nan
  | .ninf, .ninf => .nan
  | .nan, _ => .nan
  | _, .nan => .nan

/-- The `geometry_msgs/Vector3` message. -/
structure Vec3 where
  x : Dbl
  y : Dbl
  z : Dbl
deriving DecidableEq

/-- The `geometry_msgs/Quaternion` message (also standing in for `tf2::Quaternion`). -/
structure Quat where
  x : Dbl
  y : Dbl
  z : Dbl
  w : Dbl
deriving DecidableEq

/-- The `geometry_msgs/Transform` message: a translation and a rotation. -/
structure Transform where
  translation : Vec3
  rotation : Quat
deriving DecidableEq

/-- The `fiducial_msgs/FiducialTransform` message: one detected marker. -/
structure FiducialTransform where
  fiducial_id : Nat
  transform : Transform
  image_error : Dbl
  object_error : Dbl
  fiducial_area : Dbl
deriving DecidableEq

/-- The `std_msgs/Header` message (the `seq` field is unused by the node). -/
structure HeaderM where
  stamp : ℚ
  frame_id : String
deriving DecidableEq

/-- The `fiducial_msgs/FiducialTransformArray` message: one incoming batch. -/
structure FiducialTransformArray where
  header : HeaderM
  transforms : List FiducialTransform
deriving DecidableEq

/-- Modelled from the spec: `TransformWithVariance` (declared in
`fiducial_slam/transform_with_variance.h`, not under src/) pairs a rigid
transform with a scalar variance (§3 of the spec). -/
structure TransformWithVariance where
  transform : Transform
  variance : Dbl
deriving DecidableEq

/-- Modelled from the spec: `tf2::Stamped<TransformWithVariance>` — a
transform-with-variance together with a timestamp and a frame name. -/
structure StampedTWV where
  twv : TransformWithVariance
  stamp : ℚ
  frame_id : String
deriving DecidableEq

/-- Modelled from the spec: `Observation` (declared in `fiducial_slam/map.h`,
not under src/) — one fiducial sighting: identifier plus stamped
transform-with-variance, the fields the node actually constructs and reads
(`obs.fid`, `obs.T_camFid`). -/
structure Observation where
  fid : Nat
  T_camFid : StampedTWV
deriving DecidableEq

/-- What line 105 of `fiducial_slam.cpp` computes under `fiducialsFlat`: a
quaternion with the x (roll-ish) and y (pitch-ish) components zeroed.  In the
source this value is bound to a block-scoped local `q` that is never used. -/
def flattenedRotation (r : Quat) : Quat :=
  ⟨Dbl.fin 0, Dbl.fin 0, r.z, r.w⟩

/-- The configuration members of the `FiducialSlam` class, fixed by the
constructor (lines 142-181) and immutable afterwards. -/
structure Config where
  use_fiducial_area_as_weight : Bool
  weighting_scale : Dbl
  doPoseEstimation : Bool
  fiducialsFlat : Bool
  use_read_only_map : Bool
  verboseInfo : Bool
deriving DecidableEq

/-- The ROS parameters the constructor reads, `none` meaning the parameter is
unset on the parameter server. -/
structure Params where
  use_fiducial_area_as_weight : Option Bool
  weighting_scale : Option Dbl
  do_pose_estimation : Option Bool
  fiducials_flat : Option Bool
  read_only_map : Option Bool
  verbose_info : Option Bool

/-- The `FiducialSlam` constructor (lines 142-181): each parameter is read
exactly once, with the defaults of the source. -/
def mkFiducialSlam (p : Params) : Config :=
  ⟨p.use_fiducial_area_as_weight.getD false,
   p.weighting_scale.getD (Dbl.fin 1000000000),
   p.do_pose_estimation.getD false,
   p.fiducials_flat.getD false,
   p.read_only_map.getD false,
   p.verbose_info.getD false⟩

/-- Lines 169-178 of the constructor: the node subscribes to
`/fiducial_transforms` exactly when `doPoseEstimation` is false (otherwise it
only advertises a publisher on that topic). -/
def subscribesToFiducialTransforms (cfg : Config) : Bool :=
  !cfg.doPoseEstimation

/-- The comparator `compareObservation` (lines 86-88): compare two observations by fiducial
id. -/
def compareObservation (obs1 obs2 : Observation) : Bool :=
  decide (obs1.fid < obs2.fid)

/-- Stable insertion of one observation into a list: `a` is placed before the
first element that is not below it under `compareObservation`. -/
def insertObs (a : Observation) : List Observation → List Observation
  | [] => [a]
  | b :: l => if compareObservation b a then b :: insertObs a l else a :: b :: l

/-- The `std::sort(observations.begin(), observations.end(),
compareObservation)` call of line 128, modelled as the stable insertion sort
by the same comparator.  `std::sort` guarantees a permutation that is
non-decreasing in the comparator and leaves the relative order of elements
with equal ids unspecified; the stable sort is the refinement matching the
spec's "sorted/stable order" reading, and claims that depend on the order of
equal ids are settled against it. -/
def sortObs : List Observation → List Observation
  | [] => []
  | a :: l => insertObs a (sortObs l)

/-- The data carried by the two `ROS_INFO` logging statements of
`transformCallback` (lines 112 and 134-135). -/
inductive LogEvent where
  | fidErr (fid : Nat) (objErr : Dbl)
  | fidXYZ (fid : Nat) (x y z : Dbl)
deriving DecidableEq

/-- The per-entry body of the loop of lines 95-125: one `Observation` per
`FiducialTransform`.  The source also builds `tvec` (lines 98-99) and, inside
a block scope, a quaternion `q` (lines 104-109, flattened when
`fiducialsFlat`); both locals are dead — the `Observation` of lines 121-123 is
built from `ft.transform` directly, so neither the flattening nor `tvec`
reaches the constructed observation. -/
def mkObservation (cfg : Config) (hdr : HeaderM) (ft : FiducialTransform) :
    Observation :=
  let variance : Dbl :=
    if cfg.use_fiducial_area_as_weight
    then cfg.weighting_scale.div ft.fiducial_area
    else cfg.weighting_scale.mul ft.object_error
  ⟨ft.fiducial_id, ⟨⟨ft.transform, variance⟩, hdr.stamp, hdr.frame_id⟩⟩

/-- The callback `FiducialSlam::transformCallback` (lines 92-140): build one observation
per incoming transform, sort by fiducial id, log when verbose; the second
component is the observation list handed to `fiducialMap.update` at line 139,
the first component the emitted log lines. -/
def transformCallback (cfg : Config) (msg : FiducialTransformArray) :
    List LogEvent × List Observation :=
  let observations := msg.transforms.map (mkObservation cfg msg.header)
  let logs1 :=
    if cfg.verboseInfo
    then msg.transforms.map (fun ft => LogEvent.fidErr ft.fiducial_id ft.object_error)
    else []
  let sorted := sortObs observations
  let logs2 :=
    if cfg.verboseInfo
    then sorted.map (fun o =>
      LogEvent.fidXYZ o.fid o.T_camFid.twv.transform.translation.x
        o.T_camFid.twv.transform.translation.y o.T_camFid.twv.transform.translation.z)
    else []
  (logs1 ++ logs2, sorted)

/-! ### The Map side, modelled from the spec

`Map`, `Observation` fusion and persistence live in `fiducial_slam/map.h` /
`map.cpp`, which are not under src/; everything below follows the spec's
words (§3, §4.2, §4.3, §4.4).  Quaternion normalization (spec §3) needs a
square root and is outside the rational model; it is omitted, which does not
affect any equality proved here. -/

/-- Hamilton product of two quaternions over the idealized doubles. -/
def Quat.mul (a b : Quat) : Quat :=
  ⟨((a.w.mul b.x).add (a.x.mul b.w)).add ((a.y.mul b.z).sub (a.z.mul b.y)),
   ((a.w.mul b.y).sub (a.x.mul b.z)).add ((a.y.mul b.w).add (a.z.mul b.x)),
   ((a.w.mul b.z).add (a.x.mul b.y)).add ((a.z.mul b.w).sub (a.y.mul b.x)),
   ((a.w.mul b.w).sub (a.x.mul b.x)).sub ((a.y.mul b.y).add (a.z.mul b.z))⟩

/-- Conjugate, the inverse of a unit quaternion. -/
def Quat.conj (q : Quat) : Quat :=
  ⟨q.x.neg, q.y.neg, q.z.neg, q.w⟩

/-- Rotate a vector by a quaternion: the vector part of `q * (v, 0) * conj q`. -/
def Quat.rotate (q : Quat) (v : Vec3) : Vec3 :=
  let p : Quat := ⟨v.x, v.y, v.z, Dbl.fin 0⟩
  let r := (q.mul p).mul q.conj
  ⟨r.x, r.y, r.z⟩

def Vec3.add (a b : Vec3) : Vec3 :=
  ⟨a.x.add b.x, a.y.add b.y, a.z.add b.z⟩

def Vec3.neg (a : Vec3) : Vec3 :=
  ⟨a.x.neg, a.y.neg, a.z.neg⟩

/-- Composition of rigid transforms (frame A→B then B→C yields A→C). -/
def Transform.compose (a b : Transform) : Transform :=
  ⟨a.translation.add (a.rotation.rotate b.translation), a.rotation.mul b.rotation⟩

/-- Inverse of a rigid transform (rotation assumed unit). -/
def Transform.inverse (t : Transform) : Transform :=
  let rc := t.rotation.conj
  ⟨(rc.rotate t.translation).neg, rc⟩

/-- Modelled from the spec: composition of transforms-with-variance, with the
sum-on-compose variance rule the spec fixes (§3, §9). -/
def TransformWithVariance.compose (a b : TransformWithVariance) : TransformWithVariance :=
  ⟨a.transform.compose b.transform, a.variance.add b.variance⟩

/-- Modelled from the spec: inverse of a transform-with-variance; the variance
is carried over unchanged. -/
def TransformWithVariance.inverse (a : TransformWithVariance) : TransformWithVariance :=
  ⟨a.transform.inverse, a.variance⟩

/-- Inverse-variance weighted combination of two idealized doubles. -/
def wavgD (w1 w2 ws a b : Dbl) : Dbl :=
  ((a.mul w1).add (b.mul w2)).div ws

/-- Modelled from the spec: the weighted-average of two transforms with the
same target frame, each weighted by the inverse of its variance (§3); the
combined variance is the harmonic combination `v1*v2/(v1+v2)` implied by
inverse-variance weighting.  Components are combined coordinatewise; the
quaternion renormalization is omitted (square roots are outside the model). -/
def TransformWithVariance.wavg (a b : TransformWithVariance) : TransformWithVariance :=
  let w1 := (Dbl.fin 1).div a.variance
  let w2 := (Dbl.fin 1).div b.variance
  let ws := w1.add w2
  let t1 := a.transform.translation
  let t2 := b.transform.translation
  let q1 := a.transform.rotation
  let q2 := b.transform.rotation
  ⟨⟨⟨wavgD w1 w2 ws t1.x t2.x, wavgD w1 w2 ws t1.y t2.y, wavgD w1 w2 ws t1.z t2.z⟩,
    ⟨wavgD w1 w2 ws q1.x q2.x, wavgD w1 w2 ws q1.y q2.y, wavgD w1 w2 ws q1.z q2.z,
     wavgD w1 w2 ws q1.w q2.w⟩⟩,
   (a.variance.mul b.variance).div (a.variance.add b.variance)⟩

/-- Modelled from the spec: a mapped landmark — world pose with variance,
observation count, first- and last-seen timestamps (§3). -/
structure Landmark where
  pose : TransformWithVariance
  numObs : Nat
  firstSeen : ℚ
  lastSeen : ℚ
deriving DecidableEq

/-- Modelled from the spec: Map State — identifier → landmark, plus the
read-only mode flag (§3). -/
structure MapState where
  landmarks : Nat → Option Landmark
  readOnly : Bool

/-- Point update of the landmark table. -/
def MapState.setLandmark (st : MapState) (k : Nat) (lm : Landmark) : MapState :=
  ⟨fun j => if j = k then some lm else st.landmarks j, st.readOnly⟩

/-- Sorted insertion of a natural number into a list. -/
def insertNat (a : Nat) : List Nat → List Nat
  | [] => [a]
  | b :: l => if a ≤ b then a :: b :: l else b :: insertNat a l

/-- Sorted insertion that skips an already-present element. -/
def insertIdSorted (a : Nat) (s : List Nat) : List Nat :=
  if a ∈ s then s else insertNat a s

/-- The distinct identifiers of a list, in ascending order. -/
def sortedIds (l : List Nat) : List Nat :=
  l.foldr insertIdSorted []

/-- The last observation of the list carrying a given fiducial id. -/
def lastWithFid (l : List Observation) (k : Nat) : Option Observation :=
  (l.filter (fun o => o.fid = k)).getLast?

/-- Modelled from the spec: the deterministic per-identifier selection of the
Landmark Pose Estimator (§4.2): observations are taken in ascending identifier
order, and when a batch reports the same identifier more than once, the later
one in sorted/stable order — i.e. the last one in the received list — wins. -/
def winners (l : List Observation) : List Observation :=
  (sortedIds (l.map (fun o => o.fid))).filterMap (lastWithFid l)

/-- Modelled from the spec: the observer world pose implied by one sighting of
a known landmark — the landmark world pose composed with the inverse of the
observed relative transform (§4.2 step 2). -/
def impliedObserverPose (lm : Landmark) (o : Observation) : TransformWithVariance :=
  lm.pose.compose o.T_camFid.twv.inverse

/-- Modelled from the spec: resolve the observer pose from the known
observations by weighted-averaging all implied poses; `none` when no known
landmark is visible (§4.2 steps 2-3). -/
def resolveObserver (st : MapState) (ws : List Observation) :
    Option TransformWithVariance :=
  ws.foldl
    (fun acc o =>
      match st.landmarks o.fid with
      | none => acc
      | some lm =>
        match acc with
        | none => some (impliedObserverPose lm o)
        | some p => some (p.wavg (impliedObserverPose lm o)))
    none

/-- Modelled from the spec: the candidate world pose of an observed landmark —
observer pose composed with the relative transform; when no observer pose is
resolvable the first sighting is anchored with the observer at the world
origin, the documented default policy (§4.2 step 4, §9). -/
def candidatePose (observer : Option TransformWithVariance) (o : Observation) :
    TransformWithVariance :=
  match observer with
  | some p => p.compose o.T_camFid.twv
  | none => o.T_camFid.twv

/-- Modelled from the spec: fuse one candidate into the map — insert a new
landmark, or replace an existing pose by the weighted average, bump the
observation count and the last-seen stamp (§4.3). -/
def fuseCandidate (ts : ℚ) (observer : Option TransformWithVariance)
    (st : MapState) (o : Observation) : MapState :=
  let cand := candidatePose observer o
  match st.landmarks o.fid with
  | none => st.setLandmark o.fid ⟨cand, 1, ts, ts⟩
  | some lm => st.setLandmark o.fid ⟨lm.pose.wavg cand, lm.numObs + 1, lm.firstSeen, ts⟩

/-- Modelled from the spec: the body of `Map::update(observations, timestamp)`
on the deduplicated, ascending-id candidate list: read-only maps discard every
candidate; otherwise resolve the observer pose from the current map and fuse
each candidate (§4.2, §4.3). -/
def mapUpdateCore (st : MapState) (ws : List Observation) (ts : ℚ) : MapState :=
  if st.readOnly then st
  else
    let observer := resolveObserver st ws
    ws.foldl (fuseCandidate ts observer) st

/-- Modelled from the spec: `Map::update(observations, timestamp)` — apply the
§4.2 per-identifier selection (`winners`) to the received list, then fuse
(§4.3). -/
def mapUpdate (st : MapState) (obsList : List Observation) (ts : ℚ) : MapState :=
  mapUpdateCore st (winners obsList) ts

/-- One delivery of a `/fiducial_transforms` message to the node: the callback
builds and sorts the observations (lines 92-137) and hands them to
`fiducialMap.update` with the batch stamp (line 139). -/
def processMsg (cfg : Config) (st : MapState) (msg : FiducialTransformArray) :
    MapState :=
  mapUpdate st (transformCallback cfg msg).2 msg.header.stamp

/-- Modelled from the spec: `Map::update()` with no arguments — the
maintenance tick issued from the main loop — must not fail on an empty map and
must not mutate landmark poses on its own (§4.3); it is the identity on the
map state. -/
def mapTick (st : MapState) : MapState := st

/-- Modelled from the spec: the durable (on-disk) map, `none` when nothing has
ever been written. -/
structure DurableStore where
  contents : Option (Nat → Option Landmark)

/-- Modelled from the spec: `Map::saveMap()` serializes the current landmark
table to durable storage (§4.4). -/
def saveMap (st : MapState) (_d : DurableStore) : DurableStore :=
  ⟨some st.landmarks⟩

/-- The global `node` pointer together with the state the SIGINT handler
reads. -/
structure NodeState where
  use_read_only_map : Bool
  fiducialMap : MapState

/-- The handler `mySigintHandler` (lines 185-195): when the node exists and is not in
read-only mode, save the map; otherwise leave the durable store untouched.
The boolean records whether `saveMap` was invoked. -/
def mySigintHandler (node : Option NodeState) (d : DurableStore) :
    DurableStore × Bool :=
  match node with
  | none => (d, false)
  | some n =>
    if n.use_read_only_map then (d, false) else (saveMap n.fiducialMap d, true)

/-- The constant passed to `ros::Rate` in `main` (line 204). -/
def mainLoopRateHz : Nat := 20

/-- The externally visible events of one main-loop iteration. -/
inductive LoopEvent where
  | deliver (m : FiducialTransformArray)
  | maintenanceTick
deriving DecidableEq

/-- One `ros::spinOnce()` call (line 206): the pending messages are delivered to the
`/fiducial_transforms` callback only when the constructor subscribed to the
topic. -/
def spinOnceEvents (cfg : Config) (pending : List FiducialTransformArray) :
    List LoopEvent :=
  if subscribesToFiducialTransforms cfg then pending.map LoopEvent.deliver else []

/-- The events of one iteration of the `while (ros::ok())` loop (lines
205-209): deliver pending messages, then one maintenance tick
(`node->fiducialMap.update()`). -/
def loopIterEvents (cfg : Config) (pending : List FiducialTransformArray) :
    List LoopEvent :=
  spinOnceEvents cfg pending ++ [LoopEvent.maintenanceTick]

/-- Number of maintenance ticks in an event list. -/
def countTicks : List LoopEvent → Nat
  | [] => 0
  | LoopEvent.maintenanceTick :: es => countTicks es + 1
  | LoopEvent.deliver _ :: es => countTicks es

/-- The map-state effect of one main-loop iteration: pending messages are
processed by the callback when subscribed, then the maintenance tick runs. -/
def loopIter (cfg : Config) (st : MapState) (pending : List FiducialTransformArray) :
    MapState :=
  mapTick
    (if subscribesToFiducialTransforms cfg
     then pending.foldl (processMsg cfg) st
     else st)

/-- A whole session: the main loop run over a list of iterations, each with
its pending messages. -/
def runSession (cfg : Config) (st : MapState)
    (iters : List (List FiducialTransformArray)) : MapState :=
  iters.foldl (loopIter cfg) st

/-! ### Concrete inputs used by witnesses and counterexamples -/

/-- An empty read-write map. -/
def emptyMapRW : MapState := ⟨fun _ => none, false⟩

/-- A unit quaternion describing a pure roll (90° about x would be
`(√2/2,0,0,√2/2)`; this is the 180° roll, exactly representable). -/
def qRoll : Quat := ⟨Dbl.fin 1, Dbl.fin 0, Dbl.fin 0, Dbl.fin 0⟩

def hdrEx : HeaderM := ⟨0, ""⟩

/-- A detected marker with a pure-roll rotation, id 7, object error 1,
area 4. -/
def ftRoll : FiducialTransform :=
  ⟨7, ⟨⟨Dbl.fin 1, Dbl.fin 2, Dbl.fin 3⟩, qRoll⟩, Dbl.fin 0, Dbl.fin 1, Dbl.fin 4⟩

def msgRoll : FiducialTransformArray := ⟨hdrEx, [ftRoll]⟩

/-- Error-based weighting, scale 2, flattening on. -/
def cfgFlat : Config := ⟨false, Dbl.fin 2, false, true, false, false⟩

/-- Error-based weighting, scale 2, flattening off. -/
def cfgNoFlat : Config := ⟨false, Dbl.fin 2, false, false, false, false⟩

/-- Area-based weighting, scale 2. -/
def cfgArea : Config := ⟨true, Dbl.fin 2, false, false, false, false⟩

/-- A marker whose reported area is zero (id 3). -/
def ftZeroArea : FiducialTransform :=
  ⟨3, ⟨⟨Dbl.fin 0, Dbl.fin 0, Dbl.fin 0⟩, ⟨Dbl.fin 0, Dbl.fin 0, Dbl.fin 0, Dbl.fin 1⟩⟩,
   Dbl.fin 0, Dbl.fin 1, Dbl.fin 0⟩

def msgZeroArea : FiducialTransformArray := ⟨hdrEx, [ftZeroArea]⟩

/-- Two markers that report the same id 5 with different translations. -/
def ftDupA : FiducialTransform :=
  ⟨5, ⟨⟨Dbl.fin 1, Dbl.fin 0, Dbl.fin 0⟩, ⟨Dbl.fin 0, Dbl.fin 0, Dbl.fin 0, Dbl.fin 1⟩⟩,
   Dbl.fin 0, Dbl.fin 1, Dbl.fin 1⟩

def ftDupB : FiducialTransform :=
  ⟨5, ⟨⟨Dbl.fin 2, Dbl.fin 0, Dbl.fin 0⟩, ⟨Dbl.fin 0, Dbl.fin 0, Dbl.fin 0, Dbl.fin 1⟩⟩,
   Dbl.fin 0, Dbl.fin 1, Dbl.fin 1⟩

def msgDupAB : FiducialTransformArray := ⟨hdrEx, [ftDupA, ftDupB]⟩

def msgDupBA : FiducialTransformArray := ⟨hdrEx, [ftDupB, ftDupA]⟩

/-- A configuration with `do_pose_estimation` set. -/
def cfgPose : Config := ⟨false, Dbl.fin 2, true, false, false, false⟩

/-- Strict comparison of observations by fiducial id is vacuously
antisymmetric. -/
def fidLtAntisymm : IsAntisymm Observation (fun o1 o2 => o1.fid < o2.fid) :=
  ⟨fun _ _ h1 h2 => absurd (Nat.lt_trans h1 h2) (Nat.lt_irrefl _)⟩

/-! ### Helper lemmas about the observation sort -/

lemma mem_insertObs {x a : Observation} {l : List Observation} :
    x ∈ insertObs a l ↔ x = a ∨ x ∈ l := by
  induction l with
  | nil => simp [insertObs]
  | cons b t ih =>
    by_cases h : compareObservation b a
    · simp only [insertObs, h, if_true, List.mem_cons, ih]
      tauto
    · simp [insertObs, h, List.mem_cons]

lemma insertObs_perm (a : Observation) (l : List Observation) :
    List.Perm (insertObs a l) (a :: l) := by
  induction l with
  | nil => simp [insertObs]
  | cons b t ih =>
    by_cases h : compareObservation b a
    · simp only [insertObs, h, if_true]
      exact (ih.cons b).trans (List.Perm.swap a b t)
    · simp [insertObs, h]

lemma sortObs_perm (l : List Observation) : List.Perm (sortObs l) l := by
  induction l with
  | nil => simp [sortObs]
  | cons a t ih => exact (insertObs_perm a (sortObs t)).trans (ih.cons a)

lemma sorted_insertObs {a : Observation} {l : List Observation}
    (h : l.Pairwise (fun o1 o2 => o1.fid ≤ o2.fid)) :
    (insertObs a l).Pairwise (fun o1 o2 => o1.fid ≤ o2.fid) := by
  induction l with
  | nil => simp [insertObs]
  | cons b t ih =>
    rw [List.pairwise_cons] at h
    by_cases hc : compareObservation b a
    · have hba : b.fid ≤ a.fid := by
        simp only [compareObservation, decide_eq_true_eq] at hc
        exact Nat.le_of_lt hc
      simp only [insertObs, hc, if_true, List.pairwise_cons]
      refine ⟨fun x hx => ?_, ih h.2⟩
      rcases mem_insertObs.mp hx with rfl | hx
      · exact hba
      · exact h.1 x hx
    · have hab : a.fid ≤ b.fid := by
        simp only [compareObservation, decide_eq_true_eq] at hc
        omega
      have hif : insertObs a (b :: t) = a :: b :: t := by
        simp [insertObs, hc]
      rw [hif, List.pairwise_cons]
      refine ⟨fun x hx => ?_, List.pairwise_cons.mpr h⟩
      rcases List.mem_cons.mp hx with rfl | hx
      · exact hab
      · exact hab.trans (h.1 x hx)

lemma sortObs_sorted (l : List Observation) :
    (sortObs l).Pairwise (fun o1 o2 => o1.fid ≤ o2.fid) := by
  induction l with
  | nil => simp [sortObs]
  | cons a t ih => exact sorted_insertObs ih

lemma filter_insertObs (k : Nat) (a : Observation) (l : List Observation) :
    (insertObs a l).filter (fun o => o.fid = k) =
      (a :: l).filter (fun o => o.fid = k) := by
  induction l with
  | nil => rfl
  | cons b t ih =>
    by_cases hc : compareObservation b a
    · have hba : b.fid < a.fid := by
        simpa [compareObservation] using hc
      simp only [insertObs, hc, if_true]
      by_cases ha : a.fid = k <;> by_cases hb : b.fid = k
      · omega
      · simp [List.filter_cons, ha, hb, ih]
      · simp [List.filter_cons, ha, hb, ih]
      · simp [List.filter_cons, ha, hb, ih]
    · simp [insertObs, hc]

lemma filter_sortObs (k : Nat) (l : List Observation) :
    (sortObs l).filter (fun o => o.fid = k) = l.filter (fun o => o.fid = k) := by
  induction l with
  | nil => rfl
  | cons a t ih =>
    calc (insertObs a (sortObs t)).filter (fun o => o.fid = k)
        = (a :: sortObs t).filter (fun o => o.fid = k) := filter_insertObs k a (sortObs t)
      _ = (a :: t).filter (fun o => o.fid = k) := by
          simp [List.filter_cons, ih]

/-! ### Helper lemmas about the sorted identifier set -/

lemma mem_insertNat {x a : Nat} {s : List Nat} :
    x ∈ insertNat a s ↔ x = a ∨ x ∈ s := by
  induction s with
  | nil => simp [insertNat]
  | cons b t ih =>
    by_cases h : a ≤ b
    · simp [insertNat, h, List.mem_cons]
    · simp only [insertNat, h, if_false, List.mem_cons, ih]
      tauto

lemma insertNat_comm (a b : Nat) (s : List Nat) :
    insertNat a (insertNat b s) = insertNat b (insertNat a s) := by
  induction s with
  | nil =>
    by_cases hab : a ≤ b
    · by_cases hba : b ≤ a
      · have heq : a = b := Nat.le_antisymm hab hba
        subst heq; rfl
      · simp [insertNat, hab, hba]
    · have hba : b ≤ a := by omega
      simp [insertNat, hab, hba]
  | cons c t ih =>
    by_cases hbc : b ≤ c <;> by_cases hac : a ≤ c
    · by_cases hab : a ≤ b
      · by_cases hba : b ≤ a
        · have heq : a = b := Nat.le_antisymm hab hba
          subst heq; rfl
        · simp [insertNat, hbc, hac, hab, hba]
      · have hba : b ≤ a := by omega
        simp [insertNat, hbc, hac, hab, hba]
    · have hba : b ≤ a := by omega
      have hnab : ¬a ≤ b := by omega
      simp [insertNat, hbc, hac, hnab]
    · have hab : a ≤ b := by omega
      have hnba : ¬b ≤ a := by omega
      simp [insertNat, hbc, hac, hnba]
    · simp [insertNat, hbc, hac, ih]

lemma mem_insertIdSorted {x a : Nat} {s : List Nat} :
    x ∈ insertIdSorted a s ↔ x = a ∨ x ∈ s := by
  by_cases h : a ∈ s
  · simp only [insertIdSorted, h, if_true]
    constructor
    · exact Or.inr
    · rintro (rfl | hx)
      · exact h
      · exact hx
  · simp [insertIdSorted, h, mem_insertNat]

lemma insertIdSorted_comm (a b : Nat) (s : List Nat) :
    insertIdSorted a (insertIdSorted b s) = insertIdSorted b (insertIdSorted a s) := by
  by_cases hab : a = b
  · subst hab; rfl
  · by_cases ha : a ∈ s <;> by_cases hb : b ∈ s
    · simp [insertIdSorted, ha, hb, mem_insertNat]
    · have ha2 : a ∈ insertNat b s := mem_insertNat.mpr (Or.inr ha)
      simp [insertIdSorted, ha, hb, ha2]
    · have hb2 : b ∈ insertNat a s := mem_insertNat.mpr (Or.inr hb)
      simp [insertIdSorted, ha, hb, hb2]
    · have ha2 : a ∉ insertNat b s := by
        simp only [mem_insertNat]
        tauto
      have hb2 : b ∉ insertNat a s := by
        simp only [mem_insertNat]
        intro hx
        rcases hx with h1 | h2
        · exact hab h1.symm
        · exact hb h2
      simp [insertIdSorted, ha, hb, ha2, hb2, insertNat_comm]

lemma sortedIds_perm {l1 l2 : List Nat} (h : List.Perm l1 l2) :
    sortedIds l1 = sortedIds l2 := by
  induction h with
  | nil => rfl
  | cons x _ ih =>
    show insertIdSorted x (sortedIds _) = insertIdSorted x (sortedIds _)
    rw [ih]
  | swap x y t => exact insertIdSorted_comm y x (sortedIds t)
  | trans _ _ ih1 ih2 => exact ih1.trans ih2

lemma mem_sortedIds {x : Nat} {l : List Nat} : x ∈ sortedIds l ↔ x ∈ l := by
  induction l with
  | nil => simp [sortedIds]
  | cons a t ih =>
    simp only [sortedIds, List.foldr_cons] at ih ⊢
    rw [mem_insertIdSorted, ih, List.mem_cons]

lemma sortedIds_cons_of_mem {x : Nat} {l : List Nat} (h : x ∈ l) :
    sortedIds (x :: l) = sortedIds l := by
  have hx : x ∈ sortedIds l := mem_sortedIds.mpr h
  show insertIdSorted x (sortedIds l) = sortedIds l
  simp [insertIdSorted, hx]

/-! ### Helper lemmas about the per-identifier selection -/

lemma lastWithFid_sortObs (l : List Observation) :
    lastWithFid (sortObs l) = lastWithFid l := by
  funext k
  show ((sortObs l).filter (fun o => o.fid = k)).getLast? = _
  rw [filter_sortObs]
  rfl

lemma winners_sortObs (l : List Observation) :
    winners (sortObs l) = winners l := by
  show ((sortedIds ((sortObs l).map (fun o => o.fid))).filterMap (lastWithFid (sortObs l)))
      = ((sortedIds (l.map (fun o => o.fid))).filterMap (lastWithFid l))
  rw [lastWithFid_sortObs, sortedIds_perm ((sortObs_perm l).map (fun o => o.fid))]

lemma lastWithFid_drop {l2 : List Observation} {d : Observation}
    (h : ∃ d' ∈ l2, d'.fid = d.fid) (l1 : List Observation) :
    lastWithFid (l1 ++ d :: l2) = lastWithFid (l1 ++ l2) := by
  obtain ⟨d', hd', hfid⟩ := h
  funext k
  show ((l1 ++ d :: l2).filter (fun o => o.fid = k)).getLast?
      = ((l1 ++ l2).filter (fun o => o.fid = k)).getLast?
  by_cases hk : d.fid = k
  · have hmem : d' ∈ l2.filter (fun o => o.fid = k) :=
      List.mem_filter.mpr ⟨hd', by simp [hfid, hk]⟩
    have hne : l2.filter (fun o => o.fid = k) ≠ [] := List.ne_nil_of_mem hmem
    rw [List.filter_append, List.filter_append, List.filter_cons_of_pos (by simp [hk]),
      List.getLast?_append_cons, List.getLast?_append_of_ne_nil _ hne]
    exact List.getLast?_append_of_ne_nil [d] hne
  · rw [List.filter_append, List.filter_append, List.filter_cons_of_neg (by simp [hk])]

lemma winners_drop {l2 : List Observation} {d : Observation}
    (h : ∃ d' ∈ l2, d'.fid = d.fid) (l1 : List Observation) :
    winners (l1 ++ d :: l2) = winners (l1 ++ l2) := by
  obtain ⟨d', hd', hfid⟩ := h
  have hids : sortedIds ((l1 ++ d :: l2).map (fun o => o.fid))
      = sortedIds ((l1 ++ l2).map (fun o => o.fid)) := by
    rw [List.map_append, List.map_cons, sortedIds_perm List.perm_middle,
      sortedIds_cons_of_mem (by
        rw [List.mem_append]
        exact Or.inr (hfid ▸ List.mem_map_of_mem (fun o => o.fid) hd')),
      ← List.map_append]
  show ((sortedIds ((l1 ++ d :: l2).map (fun o => o.fid))).filterMap (lastWithFid (l1 ++ d :: l2)))
      = ((sortedIds ((l1 ++ l2).map (fun o => o.fid))).filterMap (lastWithFid (l1 ++ l2)))
  rw [hids, lastWithFid_drop ⟨d', hd', hfid⟩ l1]

lemma sortObs_eq_of_perm {l1 l2 : List Observation} (hp : List.Perm l1 l2)
    (hd : (l1.map (fun o => o.fid)).Nodup) : sortObs l1 = sortObs l2 := by
  haveI := fidLtAntisymm
  have hperm : List.Perm (sortObs l1) (sortObs l2) :=
    (sortObs_perm l1).trans (hp.trans (sortObs_perm l2).symm)
  have hd1 : ((sortObs l1).map (fun o => o.fid)).Nodup :=
    (((sortObs_perm l1).map (fun o => o.fid)).symm).nodup hd
  have hd2 : ((sortObs l2).map (fun o => o.fid)).Nodup :=
    ((hperm.map (fun o => o.fid))).nodup hd1
  have hne1 : (sortObs l1).Pairwise (fun o1 o2 => o1.fid ≠ o2.fid) :=
    List.pairwise_map.mp hd1
  have hne2 : (sortObs l2).Pairwise (fun o1 o2 => o1.fid ≠ o2.fid) :=
    List.pairwise_map.mp hd2
  have hs1 : (sortObs l1).Pairwise (fun o1 o2 => o1.fid < o2.fid) :=
    ((sortObs_sorted l1).and hne1).imp (fun h => Nat.lt_of_le_of_ne h.1 h.2)
  have hs2 : (sortObs l2).Pairwise (fun o1 o2 => o1.fid < o2.fid) :=
    ((sortObs_sorted l2).and hne2).imp (fun h => Nat.lt_of_le_of_ne h.1 h.2)
  exact List.eq_of_perm_of_sorted hperm hs1 hs2

/-! ### Claims -/

/-- C1: with `fiducials_flat` on, the claim says every constructed Observation
has roll and pitch zeroed, keeping only yaw.  In the code the flattened
quaternion of line 105 is a block-scoped local that is never used: the
Observation of lines 121-123 is built from `ft.transform` unchanged.
Evaluating the embedded callback on a pure-roll sighting with flattening on:
the rotation reaching the Observation is the raw `qRoll` (x component 1, roll
retained), not the flattened quaternion `(0,0,z,w)` the claim requires, and
the whole observation list is identical to the one produced with flattening
off — the flag has no effect at all. -/
theorem c1_flattening_is_dead_code :
    ((transformCallback cfgFlat msgRoll).2.map
        (fun o => o.T_camFid.twv.transform.rotation)) = [qRoll] ∧
      qRoll.x = Dbl.fin 1 ∧
      flattenedRotation qRoll = ⟨Dbl.fin 0, Dbl.fin 0, Dbl.fin 0, Dbl.fin 0⟩ ∧
      (transformCallback cfgFlat msgRoll).2 = (transformCallback cfgNoFlat msgRoll).2 :=
  ⟨rfl, rfl, rfl, rfl⟩

/-- C2 counterexample: the claim says a zero reported area is clamped and no
non-finite variance ever reaches `fiducialMap.update`.  On a sighting whose
`fiducial_area` is zero under the area-based policy, the observation list the
callback hands to `fiducialMap.update` (line 139) carries the variance
`weighting_scale / 0 = +inf` — a non-finite variance, unclamped. -/
theorem c2_counterexample :
    ((transformCallback cfgArea msgZeroArea).2.map
        (fun o => o.T_camFid.twv.variance)) = [Dbl.inf] ∧
      Dbl.isFinite Dbl.inf = false := by
  constructor
  · show [Dbl.div (Dbl.fin 2) (Dbl.fin 0)] = [Dbl.inf]
    norm_num [Dbl.div]
  · rfl

/-- C2 amended: no clamping is performed anywhere in the callback — the
variance is exactly `weighting_scale / fiducial_area` (area policy) or
`weighting_scale * object_error` (error policy): with a positive finite scale,
a zero area yields the infinite variance, a zero object error yields the zero
(not strictly positive) variance, and a nan area propagates nan, all reaching
`fiducialMap.update` unchanged. -/
theorem c2_no_clamping (cfg : Config) (hdr : HeaderM) (ft : FiducialTransform)
    (q : ℚ) (hq : 0 < q) (hs : cfg.weighting_scale = Dbl.fin q) :
    (cfg.use_fiducial_area_as_weight = true → ft.fiducial_area = Dbl.fin 0 →
      (mkObservation cfg hdr ft).T_camFid.twv.variance = Dbl.inf) ∧
    (cfg.use_fiducial_area_as_weight = false → ft.object_error = Dbl.fin 0 →
      (mkObservation cfg hdr ft).T_camFid.twv.variance = Dbl.fin 0) ∧
    (cfg.use_fiducial_area_as_weight = true → ft.fiducial_area = Dbl.nan →
      (mkObservation cfg hdr ft).T_camFid.twv.variance = Dbl.nan) := by
  have hq0 : ¬(q = 0) := by positivity
  refine ⟨fun hw ha => ?_, fun hw he => ?_, fun hw ha => ?_⟩
  · show (if cfg.use_fiducial_area_as_weight
        then cfg.weighting_scale.div ft.fiducial_area
        else cfg.weighting_scale.mul ft.object_error) = Dbl.inf
    rw [hw, if_pos rfl, hs, ha]
    simp [Dbl.div, hq0, hq]
  · show (if cfg.use_fiducial_area_as_weight
        then cfg.weighting_scale.div ft.fiducial_area
        else cfg.weighting_scale.mul ft.object_error) = Dbl.fin 0
    rw [hw, if_neg (by simp), hs, he]
    simp [Dbl.mul]
  · show (if cfg.use_fiducial_area_as_weight
        then cfg.weighting_scale.div ft.fiducial_area
        else cfg.weighting_scale.mul ft.object_error) = Dbl.nan
    rw [hw, if_pos rfl, hs, ha]
    rfl

/-- Witness for `c2_no_clamping` at the concrete area-policy configuration and
the zero-area sighting. -/
theorem c2_no_clamping_witness :
    (0 < (2 : ℚ)) ∧ (cfgArea.weighting_scale = Dbl.fin 2) ∧
      ((cfgArea.use_fiducial_area_as_weight = true →
          ftZeroArea.fiducial_area = Dbl.fin 0 →
          (mkObservation cfgArea hdrEx ftZeroArea).T_camFid.twv.variance = Dbl.inf) ∧
        (cfgArea.use_fiducial_area_as_weight = false →
          ftZeroArea.object_error = Dbl.fin 0 →
          (mkObservation cfgArea hdrEx ftZeroArea).T_camFid.twv.variance = Dbl.fin 0) ∧
        (cfgArea.use_fiducial_area_as_weight = true →
          ftZeroArea.fiducial_area = Dbl.nan →
          (mkObservation cfgArea hdrEx ftZeroArea).T_camFid.twv.variance = Dbl.nan)) :=
  ⟨by norm_num, rfl, c2_no_clamping cfgArea hdrEx ftZeroArea 2 (by norm_num) rfl⟩

/-- C3: a batch in which an observation for some identifier is followed, later
in the batch, by another observation for the same identifier yields exactly
the same result as the batch with the earlier duplicate removed — the later
one (which the stable sort keeps later, and the spec-modelled §4.2 selection
makes win) fully determines the outcome. -/
theorem c3_later_duplicate_wins (cfg : Config) (st : MapState) (hdr : HeaderM)
    (l1 l2 : List FiducialTransform) (d : FiducialTransform)
    (h : ∃ d' ∈ l2, d'.fiducial_id = d.fiducial_id) :
    processMsg cfg st ⟨hdr, l1 ++ d :: l2⟩ = processMsg cfg st ⟨hdr, l1 ++ l2⟩ := by
  obtain ⟨d', hd', hfid⟩ := h
  show mapUpdateCore st
      (winners (sortObs ((l1 ++ d :: l2).map (mkObservation cfg hdr)))) hdr.stamp
    = mapUpdateCore st
      (winners (sortObs ((l1 ++ l2).map (mkObservation cfg hdr)))) hdr.stamp
  rw [winners_sortObs, winners_sortObs, List.map_append, List.map_cons,
    List.map_append]
  rw [winners_drop ⟨mkObservation cfg hdr d',
    List.mem_map_of_mem (mkObservation cfg hdr) hd',
    (show (mkObservation cfg hdr d').fid = (mkObservation cfg hdr d).fid from hfid)⟩
    (l1.map (mkObservation cfg hdr))]

/-- Witness for `c3_later_duplicate_wins`: two sightings of id 5 in one batch,
the earlier removable without changing the resulting map state. -/
theorem c3_later_duplicate_wins_witness :
    (∃ d' ∈ [ftDupB], d'.fiducial_id = ftDupA.fiducial_id) ∧
      processMsg cfgNoFlat emptyMapRW ⟨hdrEx, [] ++ ftDupA :: [ftDupB]⟩ =
        processMsg cfgNoFlat emptyMapRW ⟨hdrEx, [] ++ [ftDupB]⟩ :=
  ⟨⟨ftDupB, List.mem_singleton.mpr rfl, rfl⟩,
    c3_later_duplicate_wins cfgNoFlat emptyMapRW hdrEx [] [ftDupB] ftDupA
      ⟨ftDupB, List.mem_singleton.mpr rfl, rfl⟩⟩

/-- C4 counterexample: the claim says the observation list passed to
`fiducialMap.update` is the same for every permutation of the incoming
transforms.  Two sightings of the same id 5 with different translations,
delivered in the two orders, are both permutations of each other, yet the
sorted lists handed to the map differ (the sort key is only the id, so the
order of equal-id entries follows arrival order). -/
theorem c4_counterexample :
    List.Perm msgDupAB.transforms msgDupBA.transforms ∧
      (transformCallback cfgNoFlat msgDupAB).2 ≠ (transformCallback cfgNoFlat msgDupBA).2 := by
  constructor
  · exact List.Perm.swap ftDupB ftDupA []
  · decide

/-- C4 amended: the observation list handed to `fiducialMap.update` is always
non-decreasing in fiducial id, and whenever the batch's identifiers are
pairwise distinct it is the same list for every permutation of the incoming
transforms; with duplicate identifiers the relative order of the equal-id
entries follows arrival order, so full permutation-invariance fails. -/
theorem c4_sorted_and_order_independent (cfg : Config) (hdr : HeaderM)
    (l1 l2 : List FiducialTransform) :
    ((transformCallback cfg ⟨hdr, l1⟩).2.Pairwise (fun o1 o2 => o1.fid ≤ o2.fid)) ∧
      (List.Perm l1 l2 → ((l1.map (fun t => t.fiducial_id)).Nodup) →
        (transformCallback cfg ⟨hdr, l1⟩).2 = (transformCallback cfg ⟨hdr, l2⟩).2) := by
  constructor
  · exact sortObs_sorted _
  · intro hp hnd
    show sortObs (l1.map (mkObservation cfg hdr)) = sortObs (l2.map (mkObservation cfg hdr))
    refine sortObs_eq_of_perm (hp.map _) ?_
    rw [List.map_map]
    exact hnd

/-- Witness for `c4_sorted_and_order_independent` on a distinct-id batch and a
permutation of it. -/
theorem c4_sorted_and_order_independent_witness :
    List.Perm [ftRoll, ftZeroArea] [ftZeroArea, ftRoll] ∧
      (([ftRoll, ftZeroArea].map (fun t => t.fiducial_id)).Nodup) ∧
      ((transformCallback cfgArea ⟨hdrEx, [ftRoll, ftZeroArea]⟩).2.Pairwise
          (fun o1 o2 => o1.fid ≤ o2.fid) ∧
        (transformCallback cfgArea ⟨hdrEx, [ftRoll, ftZeroArea]⟩).2 =
          (transformCallback cfgArea ⟨hdrEx, [ftZeroArea, ftRoll]⟩).2) :=
  ⟨List.Perm.swap ftZeroArea ftRoll [], by decide,
    (c4_sorted_and_order_independent cfgArea hdrEx [ftRoll, ftZeroArea] [ftZeroArea, ftRoll]).1,
    (c4_sorted_and_order_independent cfgArea hdrEx [ftRoll, ftZeroArea] [ftZeroArea, ftRoll]).2
      (List.Perm.swap ftZeroArea ftRoll []) (by decide)⟩

/-- C5: every observation handed to `fiducialMap.update` carries the variance
`weighting_scale / fiducial_area` under the area-based policy and
`weighting_scale * object_error` under the error-based policy, computed from
the one policy selector and scale constant fixed at construction (the same
`cfg` for every entry of every call). -/
theorem c5_variance_formula (cfg : Config) (msg : FiducialTransformArray) :
    ∀ o ∈ (transformCallback cfg msg).2, ∃ ft ∈ msg.transforms,
      o.fid = ft.fiducial_id ∧
        o.T_camFid.twv.variance =
          (if cfg.use_fiducial_area_as_weight
           then cfg.weighting_scale.div ft.fiducial_area
           else cfg.weighting_scale.mul ft.object_error) := by
  intro o ho
  have ho2 : o ∈ msg.transforms.map (mkObservation cfg msg.header) :=
    (sortObs_perm _).mem_iff.mp ho
  obtain ⟨ft, hft, rfl⟩ := List.mem_map.mp ho2
  exact ⟨ft, hft, rfl, rfl⟩

/-- Witness for `c5_variance_formula`: the single-sighting batch `msgRoll`
under the area policy; the constructed observation's variance is
`2 / 4`. -/
theorem c5_variance_formula_witness :
    (mkObservation cfgArea hdrEx ftRoll ∈ (transformCallback cfgArea msgRoll).2) ∧
      (∃ ft ∈ msgRoll.transforms,
        (mkObservation cfgArea hdrEx ftRoll).fid = ft.fiducial_id ∧
          (mkObservation cfgArea hdrEx ftRoll).T_camFid.twv.variance =
            (if cfgArea.use_fiducial_area_as_weight
             then cfgArea.weighting_scale.div ft.fiducial_area
             else cfgArea.weighting_scale.mul ft.object_error)) :=
  ⟨List.mem_singleton.mpr rfl,
    c5_variance_formula cfgArea msgRoll (mkObservation cfgArea hdrEx ftRoll)
      (List.mem_singleton.mpr rfl)⟩

/-- C6: on SIGINT, `saveMap` is invoked exactly when the session is not
read-only; a read-only session (and a session with no live node) leaves the
durable map untouched. -/
theorem c6_shutdown_save_policy (ro : Bool) (m : MapState) (d : DurableStore) :
    (mySigintHandler (some ⟨ro, m⟩) d).2 = !ro ∧
      mySigintHandler (some ⟨true, m⟩) d = (d, false) ∧
      mySigintHandler none d = (d, false) := by
  cases ro <;> simp [mySigintHandler]

/-- C7: every iteration of the main loop issues exactly one maintenance tick,
whatever messages arrived (and whether or not the node subscribed at all); the
loop rate constant is 20 Hz; and the spec-modelled no-argument
`Map::update()` tick leaves the map state — in particular the empty map —
unchanged. -/
theorem c7_maintenance_tick (cfg : Config) (pending : List FiducialTransformArray)
    (st : MapState) :
    countTicks (loopIterEvents cfg pending) = 1 ∧ mapTick st = st ∧
      mainLoopRateHz = 20 := by
  refine ⟨?_, rfl, rfl⟩
  unfold loopIterEvents spinOnceEvents
  by_cases h : subscribesToFiducialTransforms cfg
  · simp only [h, if_true]
    induction pending with
    | nil => rfl
    | cons m t ih => simpa [countTicks] using ih
  · simp [h, countTicks]

/-- C8: when `do_pose_estimation` is set at construction, the node never
subscribes to `/fiducial_transforms`, so the callback is never delivered and a
whole session leaves the map state exactly as it started. -/
theorem c8_pose_estimation_no_subscribe (cfg : Config)
    (h : cfg.doPoseEstimation = true) (st : MapState)
    (iters : List (List FiducialTransformArray)) :
    subscribesToFiducialTransforms cfg = false ∧ runSession cfg st iters = st := by
  have hsub : subscribesToFiducialTransforms cfg = false := by
    simp [subscribesToFiducialTransforms, h]
  have hstep : ∀ (s : MapState) (p : List FiducialTransformArray),
      loopIter cfg s p = s := by
    intro s p
    simp [loopIter, hsub, mapTick]
  refine ⟨hsub, ?_⟩
  induction iters generalizing st with
  | nil => rfl
  | cons p t ih =>
    show runSession cfg (loopIter cfg st p) t = st
    rw [hstep st p]
    exact ih st

/-- Witness for `c8_pose_estimation_no_subscribe` at the concrete
pose-estimation configuration. -/
theorem c8_pose_estimation_no_subscribe_witness :
    (cfgPose.doPoseEstimation = true) ∧
      (subscribesToFiducialTransforms cfgPose = false ∧
        runSession cfgPose emptyMapRW [[msgRoll]] = emptyMapRW) :=
  ⟨rfl, c8_pose_estimation_no_subscribe cfgPose rfl emptyMapRW [[msgRoll]]⟩

/-- C9: the callback builds exactly one Observation per entry of
`msg->transforms` — duplicates included — and hands all of them to
`fiducialMap.update`: the list has the same length as the incoming array and
is a permutation of the per-entry constructions (the callback neither
deduplicates nor filters). -/
theorem c9_one_observation_per_entry (cfg : Config) (msg : FiducialTransformArray) :
    ((transformCallback cfg msg).2).length = msg.transforms.length ∧
      List.Perm (transformCallback cfg msg).2
        (msg.transforms.map (mkObservation cfg msg.header)) := by
  constructor
  · show (sortObs (msg.transforms.map (mkObservation cfg msg.header))).length
        = msg.transforms.length
    rw [(sortObs_perm _).length_eq, List.length_map]
  · exact sortObs_perm _

/-- C10: the observation list handed to `fiducialMap.update` is identical
whatever the `verbose_info` flag is — verbosity only changes the log
output. -/
theorem c10_verbose_does_not_affect_fusion (a : Bool) (s : Dbl)
    (dp fl ro b1 b2 : Bool) (msg : FiducialTransformArray) :
    (transformCallback ⟨a, s, dp, fl, ro, b1⟩ msg).2 =
      (transformCallback ⟨a, s, dp, fl, ro, b2⟩ msg).2 := rfl

end FidSlam
